import Mathlib

/-!
Shallow embedding of the generation pipeline of
src/cnifty/content/generate_content.py, with theorems checking the
specification's claims about it.

Conventions of the embedding:
* A trait row is the tuple produced by one CSV line in __load_traits:
  (type or None, name or None, int(rarity_weight), image_path or None),
  with the image path already replaced by the decoded image, kept abstract
  here as a handle.
* numpy float64 arithmetic on the rarity weights is rendered by exact
  rational arithmetic; where the source divides by a zero group total
  (producing NaN without raising), the rationals produce the junk value 0 -
  in either semantics the result is not a probability distribution.
* The numpy random generator is factored out: rng.choice draws one row
  index per category group, so a run is parametrised by an abstract stream
  of per-iteration draws, and numpy's choice(a, p) contract - the returned
  element always has strictly positive probability - is the validity
  predicate on draws.
* The unbounded `while bar.pos < amount` loop is fuel-indexed; returning
  none means the fuel ran out before the loop exited, so a loop that
  returns none for every fuel is one that never terminates.
-/

structure TraitRow where
  category : Option String
  name : Option String
  weight : Int
  image : Option String
deriving Repr, DecidableEq, Inhabited

/-- Row lookup traits[i] (numpy integer fancy indexing); every index we
reason about is in range. -/
def getRow (traits : List TraitRow) (i : Nat) : TraitRow :=
  traits.getD i default

/-- The distinct category values of the table, in first-occurrence order,
built with a structural seen-accumulator. -/
def distinctFirstAux (seen : List (Option String)) : List TraitRow → List (Option String)
  | [] => []
  | r :: rs =>
    if r.category ∈ seen then distinctFirstAux seen rs
    else r.category :: distinctFirstAux (r.category :: seen) rs

/-- __get_normalized_rarity_weight_groups sorts the rows by category and
splits at the category boundaries (argsort, np.unique, np.split), giving
exactly one group per distinct category value, each group holding all rows
of that category.  The groups are recovered here per distinct category;
np.unique lists the categories in sorted order, but the group order is
immaterial downstream (the sampler draws one index per group and then
re-sorts all chosen indexes), so first-occurrence order - the order the
specification speaks about - is used as the coordinate convention. -/
def categoriesOf (traits : List TraitRow) : List (Option String) :=
  distinctFirstAux [] traits

/-- The (original row index, float64 rarity weight) pairs of one category
group: column_stack of the argsorted indexes with the weights, split per
category. -/
def groupOf (traits : List TraitRow) (c : Option String) : List (Nat × Rat) :=
  (traits.enum.filter (fun p => p.2.category == c)).map (fun p => (p.1, (p.2.weight : Rat)))

def indexedWeightGroups (traits : List TraitRow) : List (List (Nat × Rat)) :=
  (categoriesOf traits).map (groupOf traits)

/-- _normalize_indexed_rarity_weights: weight_matrix[:, 1] = weights/weights.sum().
No check precedes the division: a zero group total gives 0.0/0.0 = NaN in
float64 (no exception), rendered here as the rational junk value 0. -/
def _normalize_indexed_rarity_weights (g : List (Nat × Rat)) : List (Nat × Rat) :=
  let s := (g.map Prod.snd).sum
  g.map (fun p => (p.1, p.2 / s))

def __get_normalized_rarity_weight_groups (traits : List TraitRow) : List (List (Nat × Rat)) :=
  (indexedWeightGroups traits).map _normalize_indexed_rarity_weights

/-- __get_random_traits with the numpy draws factored out: rng.choice has
picked one row index per category group (the choice list, one entry per
group in group order); the chosen indexes are sorted ascending (np.sort)
and mapped through the table (traits[random_trait_indexes]). -/
def __get_random_traits (traits : List TraitRow) (choice : List Nat) : List TraitRow :=
  (List.insertionSort (fun a b => a ≤ b) choice).map (getRow traits)

/-- The contract of one iteration's draws: one chosen index per group, in
group order, and - numpy's choice(a, p) semantics - each chosen index is an
element of its group carrying strictly positive probability. -/
def validChoice (groups : List (List (Nat × Rat))) (choice : List Nat) : Bool :=
  choice.length == groups.length &&
    (choice.zip groups).all (fun ig => ig.2.any (fun p => p.1 == ig.1 && decide (0 < p.2)))

/-- The __generate_token_data sampling loop, fuel-indexed.  stream t is the
tuple of per-group draws of iteration t; seen is the generated_traits set
of name tuples, acc the accepted token rows in order.  The weight column
np.delete at the end of the source is a projection and is left to the
consumers, which access fields by name here. -/
def sampleLoop (traits : List TraitRow) (amount : Nat) (stream : Nat → List Nat) :
    Nat → Nat → List (List (Option String)) → List (List TraitRow) →
      Option (List (List TraitRow))
  | 0, _, _, _ => none
  | fuel + 1, t, seen, acc =>
    if acc.length = amount then some acc
    else
      let rt := __get_random_traits traits (stream t)
      let names := rt.map TraitRow.name
      if names ∈ seen then sampleLoop traits amount stream fuel (t + 1) seen acc
      else sampleLoop traits amount stream fuel (t + 1) (names :: seen) (acc ++ [rt])

def __generate_token_data (traits : List TraitRow) (amount : Nat)
    (stream : Nat → List Nat) (fuel : Nat) : Option (List (List TraitRow)) :=
  sampleLoop traits amount stream fuel 0 [] []

/-- astype(dtype='U') on the object array stringifies every cell; the
Python None becomes the four-letter string "None". -/
def strOfOpt : Option String → String
  | none => "None"
  | some s => s

/-- np.vstack of token_data[:, :, :2] followed by astype('U'): the stacked
(Type, Name) string pairs of every slot of every item.  Despite the
source's comment "Filter token data from None values", nothing is
filtered: absent slots are stacked too, stringified to "None". -/
def stackedPairs (tokenData : List (List TraitRow)) : List (String × String) :=
  (tokenData.map (fun item =>
    item.map (fun r => (strOfOpt r.category, strOfOpt r.name)))).flatten

/-- __generate_trait_frequencies, the written table: one row per distinct
(Type, Name) string pair with its occurrence count (np.unique with
return_counts, axis=0).  np.unique sorts its rows; the table is a keyed
mapping, so the distinct pairs are listed here in last-occurrence dedup
order instead - only the key-to-count mapping is ever consumed. -/
def traitFrequencyTable (tokenData : List (List TraitRow)) : List ((String × String) × Nat) :=
  ((stackedPairs tokenData).dedup).map (fun p => (p, (stackedPairs tokenData).count p))

/-- The per-item frequency rows __generate_trait_frequencies returns
(unique_trait_frequencies[unique_traits_inverse], np.split per token):
every slot of every item replaced by the global count of its stringified
(Type, Name) pair - absent slots included, as the "None" pair. -/
def slotFrequencies (tokenData : List (List TraitRow)) : List (List Nat) :=
  tokenData.map (fun item =>
    item.map (fun r => (stackedPairs tokenData).count (strOfOpt r.category, strOfOpt r.name)))

/-- np.count_nonzero(token_data[:, :, 1], axis=1): the number of non-None
name cells of one item (None is falsy; every loaded name string is
non-empty, hence truthy). -/
def traitCount (item : List TraitRow) : Nat :=
  (item.filter (fun r => r.name.isSome)).length

/-- __generate_trait_count_frequencies' return value: each item's trait
count replaced by the number of items sharing that count. -/
def traitCountFrequencies (tokenData : List (List TraitRow)) : List Nat :=
  tokenData.map (fun item => (tokenData.map traitCount).count (traitCount item))

/-- __generate_rarities: frequencies = np.column_stack(trait_frequencies,
trait_count_frequencies); each item's score is np.sum(len(frequencies)/x)
over its row of the stacked matrix, len(frequencies) being the number of
items. -/
def rarityScores (tokenData : List (List TraitRow)) : List Rat :=
  (List.zip (slotFrequencies tokenData) (traitCountFrequencies tokenData)).map
    (fun rc => ((rc.1 ++ [rc.2]).map
      (fun x : Nat => (tokenData.length : Rat) / (x : Rat))).sum)

/-- The rarity formula as the specification words it: a term for each
NON-absent slot only, plus the trait-count term.  Written from the spec's
sentence for comparison with rarityScores; not a translation of the
source. -/
def specRarityScores (tokenData : List (List TraitRow)) : List Rat :=
  tokenData.map (fun item =>
    ((item.filter (fun r => r.name.isSome)).map (fun r =>
      (tokenData.length : Rat) /
        ((stackedPairs tokenData).count (strOfOpt r.category, strOfOpt r.name) : Rat))).sum
    + (tokenData.length : Rat) /
        ((tokenData.map traitCount).count (traitCount item) : Rat))

/-- __combine_images: alpha-composite when both layers are present (PIL
images are always truthy), otherwise pass the present layer through; None
when both are absent.  comp abstracts Image.alpha_composite. -/
def __combine_images {Img : Type} (comp : Img → Img → Img) :
    Option Img → Option Img → Option Img
  | some a, some b => some (comp a b)
  | some a, none => some a
  | none, some b => some b
  | none, none => none

/-- functools.reduce over a sequence without an initial value: a left fold
seeded with the head; reduce raises on an empty sequence (none here), but
every item has one slot per category and a loaded table has at least one
category. -/
def reduce1 {α : Type} (f : α → α → α) : List α → Option α
  | [] => none
  | x :: xs => some (xs.foldl f x)

/-- One iteration of __generate_images: fold the item's layer images
(token_data[:, :, 2]) with __combine_images and save the result.  Saving
when the fold produced None - all layers absent - is the failure the
specification names NoVisibleLayersError: the source crashes at
combined_image.save there and writes no file. -/
def renderItem {Img : Type} (comp : Img → Img → Img) (slots : List (Option Img)) :
    Except String Img :=
  match reduce1 (__combine_images comp) slots with
  | none => Except.error "reduce of empty sequence"
  | some none => Except.error "NoVisibleLayersError"
  | some (some img) => Except.ok img

/-- __generate_metadata: each item's dictionary is the Name entry followed
by one entry per row, keyed by the row's category; the CSV fieldnames are
the keys of the FIRST item's dictionary, so the category columns after
Name appear in the order the first item's rows ended up in. -/
def metadataColumnCategories (tokenData : List (List TraitRow)) : List (Option String) :=
  match tokenData with
  | [] => []
  | item :: _ => item.map TraitRow.category

/-- A three-row table whose first category is not contiguous: the two A
rows surround the single B row.  First-occurrence category order is A, B. -/
def traitsT3 : List TraitRow :=
  [⟨some "A", some "a1", 1, none⟩, ⟨some "B", some "b1", 1, none⟩,
   ⟨some "A", some "a2", 1, none⟩]

theorem traitsT3_first_occurrence_categories :
    categoriesOf traitsT3 = [some "A", some "B"] := by decide

theorem traitsT3_groups : __get_normalized_rarity_weight_groups traitsT3 =
    [[(0, 1/2), (2, 1/2)], [(1, 1)]] := by
  simp [__get_normalized_rarity_weight_groups, indexedWeightGroups, categoriesOf,
    distinctFirstAux, groupOf, _normalize_indexed_rarity_weights, traitsT3,
    List.enum, List.enumFrom]
  norm_num

/-- Claim C9: for every trait table all of whose category groups have
positive total weight, every normalized group's probabilities sum to
exactly 1 (exact arithmetic) and every group is non-empty. -/
theorem C9_normalized_group_sums_to_one (traits : List TraitRow)
    (ng : List (Nat × Rat))
    (hpos : ∀ g ∈ indexedWeightGroups traits, 0 < (g.map Prod.snd).sum)
    (hng : ng ∈ __get_normalized_rarity_weight_groups traits) :
    (ng.map Prod.snd).sum = 1 ∧ ng ≠ [] := by
  rw [__get_normalized_rarity_weight_groups, List.mem_map] at hng
  obtain ⟨g, hg, rfl⟩ := hng
  have hs := hpos g hg
  constructor
  · rw [_normalize_indexed_rarity_weights, List.map_map]
    have hcomp : (Prod.snd ∘ fun p : Nat × Rat => (p.1, p.2 / (g.map Prod.snd).sum)) =
        fun p : Nat × Rat => p.2 * ((g.map Prod.snd).sum)⁻¹ := by
      funext p
      simp [div_eq_mul_inv]
    rw [hcomp, List.sum_map_mul_right, mul_inv_cancel₀ (ne_of_gt hs)]
  · intro hnil
    rw [_normalize_indexed_rarity_weights, List.map_eq_nil_iff] at hnil
    rw [hnil] at hs
    simp at hs

/-- Witness for C9 at the concrete table traitsT3: the A group normalizes
to probabilities one half and one half. -/
theorem C9_witness :
    (([(0, 1/2), (2, 1/2)] : List (Nat × Rat)).map Prod.snd).sum = 1 ∧
      ([(0, 1/2), (2, 1/2)] : List (Nat × Rat)) ≠ [] :=
  C9_normalized_group_sums_to_one traitsT3 [(0, 1/2), (2, 1/2)]
    (by
      intro g hg
      simp [indexedWeightGroups, categoriesOf, distinctFirstAux, groupOf, traitsT3,
        List.enum, List.enumFrom] at hg
      rcases hg with rfl | rfl <;> norm_num)
    (by rw [traitsT3_groups]; simp)

/-- A table whose category A has total weight zero. -/
def traitsZeroA : List TraitRow :=
  [⟨some "A", some "a1", 0, none⟩, ⟨some "A", some "a2", 0, none⟩,
   ⟨some "B", some "b1", 1, none⟩]

/-- Claim C6 (code behaviour at the failing input): on a table whose A
group has total weight zero the normalizer raises nothing - its type has
no error outcome - and returns the A group with every probability equal to
the junk value of 0.0/0.0 (NaN in the source's float64, 0 in the rational
rendering), whose sum is 0, not 1: no DegenerateWeightError exists
anywhere in the code. -/
theorem C6_zero_total_group_not_rejected :
    __get_normalized_rarity_weight_groups traitsZeroA = [[(0, 0), (1, 0)], [(2, 1)]] ∧
      (((__get_normalized_rarity_weight_groups traitsZeroA).headD []).map Prod.snd).sum ≠ 1 := by
  have hg : __get_normalized_rarity_weight_groups traitsZeroA =
      [[(0, 0), (1, 0)], [(2, 1)]] := by
    simp [__get_normalized_rarity_weight_groups, indexedWeightGroups, categoriesOf,
      distinctFirstAux, groupOf, _normalize_indexed_rarity_weights, traitsZeroA,
      List.enum, List.enumFrom]
  refine ⟨hg, ?_⟩
  rw [hg]
  norm_num

theorem combine_images_eq_none {Img : Type} (comp : Img → Img → Img)
    (a b : Option Img) : __combine_images comp a b = none ↔ a = none ∧ b = none := by
  cases a <;> cases b <;> simp [__combine_images]

theorem foldl_combine_eq_none {Img : Type} (comp : Img → Img → Img) :
    ∀ (slots : List (Option Img)) (acc : Option Img),
      slots.foldl (__combine_images comp) acc = none ↔
        acc = none ∧ ∀ s ∈ slots, s = none := by
  intro slots
  induction slots with
  | nil => intro acc; simp
  | cons x xs ih =>
    intro acc
    rw [List.foldl_cons, ih, combine_images_eq_none]
    simp [List.forall_mem_cons, and_assoc]

/-- Claim C5: an item all of whose layer slots are absent is reported as a
failure by the compositor (the specification's NoVisibleLayersError - the
source reaches combined_image.save with combined_image = None and crashes
there), and no image - in particular no empty image - is emitted for it. -/
theorem C5_all_layers_absent_fails {Img : Type} (comp : Img → Img → Img)
    (slots : List (Option Img)) (hne : slots ≠ [])
    (habsent : ∀ s ∈ slots, s = none) :
    renderItem comp slots = Except.error "NoVisibleLayersError" := by
  rcases slots with _ | ⟨x, xs⟩
  · exact absurd rfl hne
  · have hfold : xs.foldl (__combine_images comp) x = none := by
      rw [foldl_combine_eq_none]
      exact ⟨habsent x (List.mem_cons_self x xs), fun s hs => habsent s (List.mem_cons_of_mem x hs)⟩
    rw [renderItem, reduce1, hfold]

/-- Witness for C5: a two-slot item with both layers absent fails with the
no-visible-layers error. -/
theorem C5_witness :
    renderItem (fun a _ : Nat => a) [none, none] = Except.error "NoVisibleLayersError" :=
  C5_all_layers_absent_fails (fun a _ => a) [none, none] (by simp) (by simp)

/-- A draw stream for traitsT3: iteration 0 picks row 2 for A and row 1
for B; every later iteration picks rows 0 and 1. -/
def streamT3 : Nat → List Nat := fun n => if n = 0 then [2, 1] else [0, 1]

/-- Claim C1 counterexample: with the legitimate draws streamT3 the run
completes, but the first generated item lists its traits in order B, A -
the chosen row indexes 1 < 2 are sorted ascending, and the A row chosen
(index 2) sits after the B row - while the second item lists A, B.  So the
per-item trait order is neither the categories' first-occurrence order
[A, B] nor the same order for every item, and the metadata fieldnames
(taken from the first item) follow B, A as well. -/
theorem C1_counterexample :
    validChoice (__get_normalized_rarity_weight_groups traitsT3) [2, 1] = true ∧
    validChoice (__get_normalized_rarity_weight_groups traitsT3) [0, 1] = true ∧
    __generate_token_data traitsT3 2 streamT3 3 =
      some [[⟨some "B", some "b1", 1, none⟩, ⟨some "A", some "a2", 1, none⟩],
            [⟨some "A", some "a1", 1, none⟩, ⟨some "B", some "b1", 1, none⟩]] ∧
    metadataColumnCategories ((__generate_token_data traitsT3 2 streamT3 3).getD []) ≠
      categoriesOf traitsT3 ∧
    ((__generate_token_data traitsT3 2 streamT3 3).getD []).map
        (fun item => item.map TraitRow.category) ≠
      [categoriesOf traitsT3, categoriesOf traitsT3] := by
  refine ⟨?_, ?_, by decide, by decide, by decide⟩ <;>
    · rw [traitsT3_groups]
      simp [validChoice]

/-- Claim C1 amended: each generated item's rows are the selected rows
arranged by ascending original row index (the CSV order among the chosen
rows) - characterised here against any sorted permutation of the draw;
this order agrees with category first-occurrence order only when each
category's rows are contiguous in the table, and it may differ from item
to item. -/
theorem C1_amended_row_index_order (traits : List TraitRow)
    (choice sortedChoice : List Nat)
    (hperm : sortedChoice.Perm choice)
    (hsorted : sortedChoice.Sorted (fun a b => a ≤ b)) :
    __get_random_traits traits choice = sortedChoice.map (getRow traits) := by
  rw [__get_random_traits]
  have heq : List.insertionSort (fun a b => a ≤ b) choice = sortedChoice :=
    List.eq_of_perm_of_sorted
      ((List.perm_insertionSort _ choice).trans hperm.symm)
      (List.sorted_insertionSort _ choice) hsorted
  rw [heq]

/-- Witness for the amended C1 at the concrete draw [2, 1] on traitsT3. -/
theorem C1_amended_witness :
    __get_random_traits traitsT3 [2, 1] = [1, 2].map (getRow traitsT3) :=
  C1_amended_row_index_order traitsT3 [2, 1] [1, 2] (by decide) (by decide)

/-- Helper for C3: the loop accepts an item only when its name tuple is
not in the seen set, so as long as every accepted name tuple is recorded
in seen and the accepted tuples are pairwise distinct, they stay so. -/
theorem sampleLoop_names_nodup (traits : List TraitRow) (amount : Nat)
    (stream : Nat → List Nat) :
    ∀ (fuel t : Nat) (seen : List (List (Option String))) (acc : List (List TraitRow)),
      (∀ nm ∈ acc.map (fun item => item.map TraitRow.name), nm ∈ seen) →
      (acc.map (fun item => item.map TraitRow.name)).Nodup →
      ∀ td, sampleLoop traits amount stream fuel t seen acc = some td →
        (td.map (fun item => item.map TraitRow.name)).Nodup := by
  intro fuel
  induction fuel with
  | zero =>
    intro t seen acc _ _ td h
    exact absurd h (by rw [sampleLoop]; simp)
  | succ n ih =>
    intro t seen acc hsub hnd td h
    rw [sampleLoop] at h
    by_cases hl : acc.length = amount
    · rw [if_pos hl] at h
      cases h
      exact hnd
    · rw [if_neg hl] at h
      by_cases hm : (__get_random_traits traits (stream t)).map TraitRow.name ∈ seen
      · rw [if_pos hm] at h
        exact ih (t + 1) seen acc hsub hnd td h
      · rw [if_neg hm] at h
        refine ih (t + 1) _ _ ?_ ?_ td h
        · intro nm hnm
          rw [List.map_append, List.mem_append] at hnm
          rcases hnm with hnm | hnm
          · exact List.mem_cons_of_mem _ (hsub nm hnm)
          · simp at hnm
            rw [hnm]
            exact List.mem_cons_self _ _
        · rw [List.map_append]
          refine List.Nodup.append hnd (by simp) ?_
          intro nm hnm hnm2
          simp at hnm2
          rw [hnm2] at hnm
          exact hm (hsub _ hnm)

/-- Claim C3: whenever the sampling loop completes, no two items of the
generated set share the same ordered tuple of selected trait names. -/
theorem C3_generated_name_tuples_distinct (traits : List TraitRow) (amount : Nat)
    (stream : Nat → List Nat) (fuel : Nat) (td : List (List TraitRow))
    (h : __generate_token_data traits amount stream fuel = some td) :
    (td.map (fun item => item.map TraitRow.name)).Nodup :=
  sampleLoop_names_nodup traits amount stream fuel 0 [] [] (by simp) (by simp) td h

/-- Witness for C3: the two-item set generated from traitsT3 by the draws
streamT3 has distinct name tuples. -/
theorem C3_witness :
    (([[⟨some "B", some "b1", 1, none⟩, ⟨some "A", some "a2", 1, none⟩],
       [⟨some "A", some "a1", 1, none⟩, ⟨some "B", some "b1", 1, none⟩]] :
        List (List TraitRow)).map (fun item => item.map TraitRow.name)).Nodup :=
  C3_generated_name_tuples_distinct traitsT3 2 streamT3 3 _ (by decide)

/-- Helper for C8: the sampling loop consults the draw stream only at the
iterations it actually runs, so two streams agreeing on the consulted
window produce identical results. -/
theorem sampleLoop_congr_stream (traits : List TraitRow) (amount : Nat)
    (s1 s2 : Nat → List Nat) :
    ∀ (fuel t : Nat) (seen : List (List (Option String))) (acc : List (List TraitRow)),
      (∀ n, t ≤ n → n < t + fuel → s1 n = s2 n) →
      sampleLoop traits amount s1 fuel t seen acc =
        sampleLoop traits amount s2 fuel t seen acc := by
  intro fuel
  induction fuel with
  | zero => intro t seen acc _; rfl
  | succ n ih =>
    intro t seen acc hag
    have ht : s1 t = s2 t := hag t le_rfl (by omega)
    have hrec : ∀ seen acc, sampleLoop traits amount s1 n (t + 1) seen acc =
        sampleLoop traits amount s2 n (t + 1) seen acc :=
      fun seen acc => ih (t + 1) seen acc (fun m h1 h2 => hag m (by omega) (by omega))
    rw [sampleLoop, sampleLoop, ht]
    by_cases hl : acc.length = amount
    · rw [if_pos hl, if_pos hl]
    · rw [if_neg hl, if_neg hl]
      by_cases hm : (__get_random_traits traits (s2 t)).map TraitRow.name ∈ seen
      · rw [if_pos hm, if_pos hm]
        exact hrec seen acc
      · rw [if_neg hm, if_neg hm]
        exact hrec _ _

/-- Claim C8: two runs over the same trait table and amount whose seeded
generators were given the same seed - and therefore, numpy's default_rng
being deterministic, emit the same draw sequence (hypothesis hgen, the
part of the claim that lives in the numpy library) - produce identical
generated sets, item order and selections included. -/
theorem C8_fixed_seed_reproducible (traits : List TraitRow) (amount fuel : Nat)
    (gen1 gen2 : Nat → Nat → List Nat) (seed1 seed2 : Nat)
    (hseed : seed1 = seed2) (hgen : ∀ n, n < fuel → gen1 seed1 n = gen2 seed2 n) :
    __generate_token_data traits amount (gen1 seed1) fuel =
      __generate_token_data traits amount (gen2 seed2) fuel := by
  subst hseed
  exact sampleLoop_congr_stream traits amount (gen1 seed1) (gen2 seed1) fuel 0 [] []
    (fun n h1 h2 => hgen n (by omega))

/-- Witness for C8: two runs with the constant generator and equal seeds
coincide. -/
theorem C8_witness :
    __generate_token_data traitsT3 2 (fun _ : Nat => ([0, 1] : List Nat)) 3 =
      __generate_token_data traitsT3 2 (fun _ : Nat => ([0, 1] : List Nat)) 3 :=
  C8_fixed_seed_reproducible traitsT3 2 3 (fun _ _ => [0, 1]) (fun _ _ => [0, 1]) 0 0
    rfl (fun _ _ => rfl)

/-- The specification's own example for the combination-space check: two
categories with two trait names each, so only 2 * 2 = 4 distinct name
tuples exist. -/
def traits2x2 : List TraitRow :=
  [⟨some "A", some "X1", 1, none⟩, ⟨some "A", some "X2", 1, none⟩,
   ⟨some "B", some "Y1", 1, none⟩, ⟨some "B", some "Y2", 1, none⟩]

/-- The four name tuples an item over traits2x2 can have. -/
def possibleTuples2x2 : List (List (Option String)) :=
  [[some "X1", some "Y1"], [some "X1", some "Y2"],
   [some "X2", some "Y1"], [some "X2", some "Y2"]]

theorem traits2x2_groups : __get_normalized_rarity_weight_groups traits2x2 =
    [[(0, 1/2), (1, 1/2)], [(2, 1/2), (3, 1/2)]] := by
  simp [__get_normalized_rarity_weight_groups, indexedWeightGroups, categoriesOf,
    distinctFirstAux, groupOf, _normalize_indexed_rarity_weights, traits2x2,
    List.enum, List.enumFrom]
  norm_num

theorem mem_possible_of_valid_2x2 (choice : List Nat)
    (h : validChoice (__get_normalized_rarity_weight_groups traits2x2) choice = true) :
    (__get_random_traits traits2x2 choice).map TraitRow.name ∈ possibleTuples2x2 := by
  rw [traits2x2_groups] at h
  rcases choice with _ | ⟨i, _ | ⟨j, _ | ⟨k, rest⟩⟩⟩
  · simp [validChoice] at h
  · simp [validChoice] at h
  · rw [validChoice] at h
    simp only [Bool.and_eq_true, beq_iff_eq, List.all_eq_true, List.any_eq_true,
      decide_eq_true_eq] at h
    obtain ⟨-, hall⟩ := h
    have hi := hall (i, [(0, 1/2), (1, 1/2)]) (by simp [List.zip])
    have hj := hall (j, [(2, 1/2), (3, 1/2)]) (by simp [List.zip])
    simp only [List.mem_cons, List.not_mem_nil, or_false] at hi hj
    have hi2 : i = 0 ∨ i = 1 := by
      rcases hi with ⟨p, hp, hpi, -⟩
      rcases hp with rfl | rfl
      · exact Or.inl hpi.symm
      · exact Or.inr hpi.symm
    have hj2 : j = 2 ∨ j = 3 := by
      rcases hj with ⟨p, hp, hpj, -⟩
      rcases hp with rfl | rfl
      · exact Or.inl hpj.symm
      · exact Or.inr hpj.symm
    rcases hi2 with rfl | rfl <;> rcases hj2 with rfl | rfl <;> decide
  · simp [validChoice] at h

/-- Helper for C2: whatever legitimate draws arrive, the loop over
traits2x2 asking for 5 items can never exit: the seen set only ever holds
pairwise distinct tuples out of the 4 possible ones, the accepted items
stay in bijection with it, and the exit test acc.length = 5 is therefore
never true - for every fuel the loop runs out. -/
theorem sampleLoop_2x2_amount5_stuck (stream : Nat → List Nat)
    (hs : ∀ n, validChoice (__get_normalized_rarity_weight_groups traits2x2)
      (stream n) = true) :
    ∀ (fuel t : Nat) (seen : List (List (Option String))) (acc : List (List TraitRow)),
      acc.length = seen.length → seen.Nodup →
      (∀ nm ∈ seen, nm ∈ possibleTuples2x2) →
      sampleLoop traits2x2 5 stream fuel t seen acc = none := by
  intro fuel
  induction fuel with
  | zero => intro t seen acc _ _ _; rw [sampleLoop]
  | succ n ih =>
    intro t seen acc hlen hnd hsub
    have h4 : seen.length ≤ 4 := by
      have hsp := List.subperm_of_subset hnd (fun nm hnm => hsub nm hnm)
      have := hsp.length_le
      simpa [possibleTuples2x2] using this
    have hne : ¬acc.length = 5 := by omega
    rw [sampleLoop, if_neg hne]
    by_cases hm : (__get_random_traits traits2x2 (stream t)).map TraitRow.name ∈ seen
    · rw [if_pos hm]
      exact ih (t + 1) seen acc hlen hnd hsub
    · rw [if_neg hm]
      refine ih (t + 1) _ _ ?_ (List.nodup_cons.mpr ⟨hm, hnd⟩) ?_
      · simp [hlen]
      · intro nm hnm
        rcases List.mem_cons.mp hnm with rfl | hnm
        · exact mem_possible_of_valid_2x2 (stream t) (hs t)
        · exact hsub nm hnm

/-- Claim C2 (code behaviour at the failing input): requesting amount = 5
from traits2x2, whose combination space has only 4 name tuples, makes the
sampling loop run forever - it returns none for every fuel bound, for
every stream of legitimate draws - and no InsufficientCombinationsError
exists anywhere in the code. -/
theorem C2_amount_exceeding_combinations_loops_forever (fuel : Nat)
    (stream : Nat → List Nat)
    (hs : ∀ n, validChoice (__get_normalized_rarity_weight_groups traits2x2)
      (stream n) = true) :
    __generate_token_data traits2x2 5 stream fuel = none :=
  sampleLoop_2x2_amount5_stuck stream hs fuel 0 [] [] rfl List.nodup_nil (by simp)

/-- Witness for C2: with the constant legitimate draw [0, 2] the loop is
still incomplete after 9 iterations (and, by the theorem, after any
number). -/
theorem C2_witness :
    __generate_token_data traits2x2 5 (fun _ => [0, 2]) 9 = none :=
  C2_amount_exceeding_combinations_loops_forever 9 (fun _ => [0, 2])
    (fun _ => by rw [traits2x2_groups]; simp [validChoice])

/-- A two-item generated set over categories A and B in which the second
item selected the absent option of category B (name None). -/
def tdAbsent : List (List TraitRow) :=
  [[⟨some "A", some "x", 1, none⟩, ⟨some "B", some "y", 1, none⟩],
   [⟨some "A", some "x", 1, none⟩, ⟨some "B", none, 1, none⟩]]

/-- Claim C4 (code behaviour at the failing input): the trait frequency
table built for tdAbsent contains an entry keyed by the stringified absent
selection - astype('U') turns the Python None into the string "None" and
np.vstack filters nothing, the source's comment "Filter token data from
None values" notwithstanding - so absent slots are NOT excluded from the
table. -/
theorem C4_absent_selection_counted :
    (("B", "None"), 1) ∈ traitFrequencyTable tdAbsent := by decide

/-- Helper: List.zip of two maps over the same list is the map of the pair. -/
theorem zip_map_same {α β γ : Type} (f : α → β) (g : α → γ) (l : List α) :
    List.zip (l.map f) (l.map g) = l.map (fun a => (f a, g a)) :=
  List.zip_map' f g l

/-- Claim C7 counterexample: on tdAbsent the source's rarity score of the
second item is 5 - its absent B slot contributes the term
amount / frequency of the stringified ("B", "None") pair - while the
specification's formula, which gives absent slots no per-slot term, yields
3; the two disagree. -/
theorem C7_counterexample :
    (rarityScores tdAbsent).getD 1 0 = 5 ∧ (specRarityScores tdAbsent).getD 1 0 = 3 ∧
      rarityScores tdAbsent ≠ specRarityScores tdAbsent := by
  have h1 : (rarityScores tdAbsent).getD 1 0 = 5 := by
    simp [rarityScores, slotFrequencies, traitCountFrequencies, traitCount,
      stackedPairs, strOfOpt, tdAbsent]
    norm_num
  have h2 : (specRarityScores tdAbsent).getD 1 0 = 3 := by
    simp [specRarityScores, traitCount, stackedPairs, strOfOpt, tdAbsent]
    norm_num
  refine ⟨h1, h2, fun hcontra => ?_⟩
  rw [hcontra] at h1
  rw [h1] at h2
  norm_num at h2

/-- Claim C7 amended: every item's rarity score is the sum over ALL of its
category slots - absent slots included, each contributing amount divided
by the frequency of its stringified (category, name) pair - plus the term
amount divided by the frequency of the item's non-absent trait count. -/
theorem C7_amended_score_formula (td : List (List TraitRow)) (i : Nat)
    (hi : i < td.length) :
    (rarityScores td).getD i 0 =
      ((td.getD i []).map (fun r => (td.length : Rat) /
        ((stackedPairs td).count (strOfOpt r.category, strOfOpt r.name) : Rat))).sum
      + (td.length : Rat) /
          (((td.map traitCount).count (traitCount (td.getD i []))) : Rat) := by
  have hrs : rarityScores td = td.map (fun item =>
      (((item.map (fun r => (stackedPairs td).count (strOfOpt r.category, strOfOpt r.name)))
        ++ [(td.map traitCount).count (traitCount item)]).map
          (fun x : Nat => (td.length : Rat) / (x : Rat))).sum) := by
    rw [rarityScores, slotFrequencies, traitCountFrequencies, zip_map_same, List.map_map]
    rfl
  have hlen : i < (rarityScores td).length := by
    rw [hrs, List.length_map]
    exact hi
  rw [List.getD_eq_getElem _ _ hlen]
  have hgd : td.getD i [] = td[i] := List.getD_eq_getElem _ _ hi
  rw [hgd]
  have : (rarityScores td)[i] = (((td[i].map (fun r =>
      (stackedPairs td).count (strOfOpt r.category, strOfOpt r.name)))
        ++ [(td.map traitCount).count (traitCount td[i])]).map
          (fun x : Nat => (td.length : Rat) / (x : Rat))).sum := by
    simp only [hrs]
    rw [List.getElem_map]
  rw [this, List.map_append, List.sum_append, List.map_map]
  simp [Function.comp_def]

/-- Helper for C10: a row of weight zero keeps probability zero through
normalization - its entry in its category group is (index, w / s) with
w = 0, and 0 / s = 0 whatever the group total s is. -/
theorem prob_eq_zero_of_weight_zero (traits : List TraitRow) (i : Nat)
    (hw : (getRow traits i).weight = 0) :
    ∀ ng ∈ __get_normalized_rarity_weight_groups traits, ∀ p ∈ ng, p.1 = i → p.2 = 0 := by
  intro ng hng p hp hpi
  rw [__get_normalized_rarity_weight_groups, List.mem_map] at hng
  obtain ⟨g, hg, rfl⟩ := hng
  rw [_normalize_indexed_rarity_weights, List.mem_map] at hp
  obtain ⟨q, hq, rfl⟩ := hp
  rw [indexedWeightGroups, List.mem_map] at hg
  obtain ⟨c, -, rfl⟩ := hg
  rw [groupOf, List.mem_map] at hq
  obtain ⟨pr, hpr, rfl⟩ := hq
  simp only at hpi ⊢
  have hpr2 : pr ∈ traits.enum := List.mem_of_mem_filter hpr
  rw [List.mem_enum_iff_getElem?] at hpr2
  have hrow : getRow traits i = pr.2 := by
    rw [getRow, ← hpi, List.getD_eq_getElem?_getD, hpr2, Option.getD_some]
  have hw2 : pr.2.weight = 0 := by rw [← hrow]; exact hw
  rw [hw2]
  norm_num

/-- Helper for C10: a draw satisfying numpy's choice contract never picks
an index whose normalized probability is zero. -/
theorem zero_weight_index_not_chosen (traits : List TraitRow) (i : Nat)
    (choice : List Nat)
    (hw : (getRow traits i).weight = 0)
    (hv : validChoice (__get_normalized_rarity_weight_groups traits) choice = true) :
    i ∉ choice := by
  intro hmem
  rw [validChoice, Bool.and_eq_true, beq_iff_eq] at hv
  obtain ⟨hlen, hall⟩ := hv
  rw [List.all_eq_true] at hall
  obtain ⟨k, hkl, hk⟩ := List.mem_iff_getElem.mp hmem
  have hk2 : k < (__get_normalized_rarity_weight_groups traits).length := by
    rw [← hlen]
    exact hkl
  have hzlen : k < (choice.zip (__get_normalized_rarity_weight_groups traits)).length := by
    rw [List.length_zip]
    exact lt_min hkl hk2
  have hzmem : (choice[k], (__get_normalized_rarity_weight_groups traits)[k]) ∈
      choice.zip (__get_normalized_rarity_weight_groups traits) := by
    have := List.getElem_mem hzlen
    rw [List.getElem_zip] at this
    exact this
  have hany := hall _ hzmem
  rw [List.any_eq_true] at hany
  obtain ⟨p, hp, hpp⟩ := hany
  rw [Bool.and_eq_true, beq_iff_eq, decide_eq_true_eq] at hpp
  have hzero := prob_eq_zero_of_weight_zero traits i hw _
    (List.getElem_mem hk2) p hp (by rw [hpp.1]; exact hk)
  rw [hzero] at hpp
  exact absurd hpp.2 (lt_irrefl 0)

/-- Claim C10: a trait row of rarity weight zero - sitting in a category
whose total weight is positive - is assigned probability exactly zero by
the normalizer, and no legitimate draw (numpy choice returns only elements
of positive probability) ever selects its row index, so it never appears
in any generated item. -/
theorem C10_zero_weight_row_unselectable (traits : List TraitRow) (i : Nat)
    (ng : List (Nat × Rat)) (p : Nat × Rat) (choice : List Nat)
    (_hpos : ∀ g ∈ indexedWeightGroups traits, 0 < (g.map Prod.snd).sum)
    (hw : (getRow traits i).weight = 0)
    (hng : ng ∈ __get_normalized_rarity_weight_groups traits)
    (hp : p ∈ ng) (hpi : p.1 = i)
    (hv : validChoice (__get_normalized_rarity_weight_groups traits) choice = true) :
    p.2 = 0 ∧ i ∉ choice :=
  ⟨prob_eq_zero_of_weight_zero traits i hw ng hng p hp hpi,
    zero_weight_index_not_chosen traits i choice hw hv⟩

/-- A table with a zero-weight row (index 1) inside category A, whose
total weight 2 is positive. -/
def traitsZeroRow : List TraitRow :=
  [⟨some "A", some "a1", 2, none⟩, ⟨some "A", some "a2", 0, none⟩,
   ⟨some "B", some "b1", 1, none⟩]

theorem traitsZeroRow_groups : __get_normalized_rarity_weight_groups traitsZeroRow =
    [[(0, 1), (1, 0)], [(2, 1)]] := by
  simp [__get_normalized_rarity_weight_groups, indexedWeightGroups, categoriesOf,
    distinctFirstAux, groupOf, _normalize_indexed_rarity_weights, traitsZeroRow,
    List.enum, List.enumFrom]

/-- Witness for C10 at traitsZeroRow: the zero-weight row 1 of category A
has normalized probability 0 and the legitimate draw [0, 2] avoids it. -/
theorem C10_witness : ((1 : Nat), (0 : Rat)).2 = 0 ∧ (1 : Nat) ∉ ([0, 2] : List Nat) :=
  C10_zero_weight_row_unselectable traitsZeroRow 1 [(0, 1), (1, 0)] (1, 0) [0, 2]
    (by
      intro g hg
      simp [indexedWeightGroups, categoriesOf, distinctFirstAux, groupOf, traitsZeroRow,
        List.enum, List.enumFrom] at hg
      rcases hg with rfl | rfl <;> norm_num)
    (by decide)
    (by rw [traitsZeroRow_groups]; simp)
    (by simp)
    rfl
    (by rw [traitsZeroRow_groups]; simp [validChoice])

/-- Witness for the amended C7 at tdAbsent, item 0. -/
theorem C7_amended_witness :
    (rarityScores tdAbsent).getD 0 0 =
      ((tdAbsent.getD 0 []).map (fun r => (tdAbsent.length : Rat) /
        ((stackedPairs tdAbsent).count (strOfOpt r.category, strOfOpt r.name) : Rat))).sum
      + (tdAbsent.length : Rat) /
          (((tdAbsent.map traitCount).count (traitCount (tdAbsent.getD 0 []))) : Rat) :=
  C7_amended_score_formula tdAbsent 0 (by decide)
